import Mathlib

/-!
Verification of the stashr in-memory key/value store (src/store/store.go).

The store is a map from string keys to entries; an entry holds a string
value and an absolute expiration instant, where the Go zero `time.Time`
(modelled as the natural number 0) means "never expires".  Every operation
is modelled as a pure function that takes the current map contents (an
association list with unique keys, mirroring the Go map) and the current
time `now : Nat` (the value `time.Now()` observed during the locked
section of that call), and returns its result together with the new map
contents.  `Store.Get` is split into its two locked sections — the
read-locked check and the write-locked deletion — exactly as in the
source, so that interleavings of concurrent calls between the two lock
acquisitions can be expressed.
-/

namespace Stashr

/-- An entry of the store: `value` and `expiresAt` from `type entry` in
store.go.  `expiresAt = 0` models Go's zero `time.Time` ("no expiry"). -/
structure Entry where
  value : String
  expiresAt : Nat
  deriving DecidableEq

/-- `func (e *entry) expired() bool` from store.go:
`!e.expiresAt.IsZero() && time.Now().After(e.expiresAt)`.
Go's `After` is strict: `now` is after `expiresAt` iff `expiresAt < now`. -/
def Entry.expired (e : Entry) (now : Nat) : Bool :=
  e.expiresAt != 0 && decide (e.expiresAt < now)

/-- The map `data map[string]*entry`, as an association list. -/
abbrev StoreData := List (String × Entry)

/-- Go map lookup `e, ok := s.data[key]`. -/
def find : StoreData → String → Option Entry
  | [], _ => none
  | (k', e) :: rest, k => if k' = k then some e else find rest k

/-- Go map assignment `s.data[key] = e`. -/
def setKey : StoreData → String → Entry → StoreData
  | [], k, e => [(k, e)]
  | (k', e') :: rest, k, e =>
      if k' = k then (k, e) :: rest else (k', e') :: setKey rest k e

/-- Go built-in `delete(s.data, key)` (a no-op when the key is absent). -/
def delKey : StoreData → String → StoreData
  | [], _ => []
  | (k', e') :: rest, k =>
      if k' = k then delKey rest k else (k', e') :: delKey rest k

/-- Well-formedness of the association list: keys are unique, as in a Go
map. -/
def NoDupKeys (d : StoreData) : Prop := (d.map Prod.fst).Nodup

instance (d : StoreData) : Decidable (NoDupKeys d) :=
  inferInstanceAs (Decidable ((d.map Prod.fst).Nodup))

/-- Outcome of the read-locked section of `Get`. -/
inductive GetCheck where
  | missing : GetCheck
  | expiredHit : GetCheck
  | liveHit : String → GetCheck
  deriving DecidableEq

/-- The read-locked section of `func (s *Store) Get`: look the key up and
classify it (absent / present-but-expired / present-and-live). -/
def Store.getCheck (d : StoreData) (k : String) (now : Nat) : GetCheck :=
  match find d k with
  | none => GetCheck.missing
  | some e => if e.expired now then GetCheck.expiredHit else GetCheck.liveHit e.value

/-- The write-locked section of `Get`'s lazy-expiry path: it deletes the
key unconditionally, without re-checking expiration. -/
def Store.getExpiredDelete (d : StoreData) (k : String) : StoreData :=
  delKey d k

/-- `func (s *Store) Get(key string) (string, bool)`: the two locked
sections run back to back (the sequential execution, with no interleaved
writer between the read unlock and the write lock). -/
def Store.Get (d : StoreData) (k : String) (now : Nat) : (String × Bool) × StoreData :=
  match Store.getCheck d k now with
  | GetCheck.missing => (("", false), d)
  | GetCheck.expiredHit => (("", false), Store.getExpiredDelete d k)
  | GetCheck.liveHit v => ((v, true), d)

/-- `func (s *Store) Set(key, value string, ttl time.Duration)`:
`expiresAt` is set to `now + ttl` only when `ttl > 0`; otherwise the
entry keeps the zero `expiresAt` ("never expires").  `ttl : Int` models
Go's signed `time.Duration`. -/
def Store.Set (d : StoreData) (k v : String) (ttl : Int) (now : Nat) : StoreData :=
  let e : Entry :=
    if 0 < ttl then Entry.mk v (now + ttl.toNat) else Entry.mk v 0
  setKey d k e

/-- `func (s *Store) Delete(key string) bool`: returns `false` (after
reclaiming storage) when the key is absent or expired, `true` after
removing a live key. -/
def Store.Delete (d : StoreData) (k : String) (now : Nat) : Bool × StoreData :=
  match find d k with
  | none => (false, delKey d k)
  | some e => if e.expired now then (false, delKey d k) else (true, delKey d k)

/-- The loop body of `func (s *Store) List() []string`: collect the keys
of the entries that are not expired. -/
def listKeys : StoreData → Nat → List String
  | [], _ => []
  | (k, e) :: rest, now =>
      if e.expired now then listKeys rest now else k :: listKeys rest now

/-- `List` as a state-passing operation: it holds only the read lock and
never writes to the map, so the map it leaves behind is the map it was
given. -/
def Store.List (d : StoreData) (now : Nat) : List String × StoreData :=
  (listKeys d now, d)

/-- `func (s *Store) sweep()`: removes every entry satisfying the inlined
condition `!e.expiresAt.IsZero() && now.After(e.expiresAt)`, where `now`
is read once at the start of the sweep. -/
def Store.sweep : StoreData → Nat → StoreData
  | [], _ => []
  | (k, e) :: rest, now =>
      if e.expiresAt != 0 && decide (e.expiresAt < now) then Store.sweep rest now
      else (k, e) :: Store.sweep rest now

/-- A Go channel, reduced to the one piece of state `close` cares about:
whether it has already been closed. -/
structure GoChan where
  closed : Bool
  deriving DecidableEq

/-- Go's `close(ch)`: closing an already-closed channel is a runtime
panic ("close of closed channel"); otherwise the channel becomes closed. -/
def GoChan.close (c : GoChan) : Except String GoChan :=
  if c.closed then Except.error "close of closed channel"
  else Except.ok (GoChan.mk true)

/-- The lifecycle state a `Store` holds for its sweeper: the `stopGC`
channel created by `New`. -/
structure StoreCtl where
  stopGC : GoChan
  deriving DecidableEq

/-- The `stopGC` channel as `func New() *Store` creates it: open. -/
def Store.newCtl : StoreCtl := StoreCtl.mk (GoChan.mk false)

/-- `func (s *Store) Stop()`: `close(s.stopGC)`. -/
def Store.Stop (s : StoreCtl) : Except String StoreCtl :=
  match GoChan.close s.stopGC with
  | Except.error msg => Except.error msg
  | Except.ok c => Except.ok (StoreCtl.mk c)

/-- The expiration predicate as the spec words it ("now ≥ expiresAt"),
for comparison with the source's `Entry.expired`. -/
def specExpired (e : Entry) (now : Nat) : Bool :=
  e.expiresAt != 0 && decide (e.expiresAt ≤ now)

/-! ### Helper lemmas -/

theorem find_delKey_self (d : StoreData) (k : String) :
    find (delKey d k) k = none := by
  induction d with
  | nil => rfl
  | cons p rest ih =>
    obtain ⟨k', e'⟩ := p
    by_cases h : k' = k
    · simpa [delKey, h] using ih
    · simp [delKey, find, h, ih]

theorem find_setKey_self (d : StoreData) (k : String) (e : Entry) :
    find (setKey d k e) k = some e := by
  induction d with
  | nil => simp [setKey, find]
  | cons p rest ih =>
    obtain ⟨k', e'⟩ := p
    by_cases h : k' = k
    · simp [setKey, find, h]
    · simp [setKey, find, h, ih]

theorem setKey_setKey (d : StoreData) (k : String) (e1 e2 : Entry) :
    setKey (setKey d k e1) k e2 = setKey d k e2 := by
  induction d with
  | nil => simp [setKey]
  | cons p rest ih =>
    obtain ⟨k', e'⟩ := p
    by_cases h : k' = k
    · simp [setKey, h]
    · simp [setKey, h, ih]

theorem sweep_eq_filter (d : StoreData) (now : Nat) :
    Store.sweep d now = d.filter (fun p => !(p.2.expired now)) := by
  induction d with
  | nil => rfl
  | cons p rest ih =>
    obtain ⟨k, e⟩ := p
    cases h : e.expired now with
    | true =>
      have h' : (e.expiresAt != 0 && decide (e.expiresAt < now)) = true := h
      simp [Store.sweep, List.filter_cons, h, h', ih]
    | false =>
      have h' : (e.expiresAt != 0 && decide (e.expiresAt < now)) = false := h
      simp [Store.sweep, List.filter_cons, h, h', ih]

theorem get_found_iff (d : StoreData) (k : String) (now : Nat) :
    (Store.Get d k now).1.2 = true ↔
      ∃ e, find d k = some e ∧ e.expired now = false := by
  cases hf : find d k with
  | none => simp [Store.Get, Store.getCheck, hf]
  | some e =>
    cases he : e.expired now with
    | true => simp [Store.Get, Store.getCheck, hf, he]
    | false => simp [Store.Get, Store.getCheck, hf, he]

theorem delete_true_iff (d : StoreData) (k : String) (now : Nat) :
    (Store.Delete d k now).1 = true ↔
      ∃ e, find d k = some e ∧ e.expired now = false := by
  cases hf : find d k with
  | none => simp [Store.Delete, hf]
  | some e =>
    cases he : e.expired now with
    | true => simp [Store.Delete, hf, he]
    | false => simp [Store.Delete, hf, he]

theorem get_of_find_none (d : StoreData) (k : String) (t : Nat)
    (h : find d k = none) : Store.Get d k t = (("", false), d) := by
  simp [Store.Get, Store.getCheck, h]

theorem mem_listKeys_keys (d : StoreData) (now : Nat) (k : String)
    (h : k ∈ listKeys d now) : k ∈ d.map Prod.fst := by
  induction d with
  | nil => simp [listKeys] at h
  | cons p rest ih =>
    obtain ⟨k', e'⟩ := p
    cases he : e'.expired now with
    | true =>
      simp only [listKeys, he, if_true] at h
      simp only [List.map_cons, List.mem_cons]
      exact Or.inr (ih h)
    | false =>
      simp only [listKeys, he] at h
      simp only [Bool.false_eq_true, if_false, List.mem_cons] at h
      simp only [List.map_cons, List.mem_cons]
      rcases h with h | h
      · exact Or.inl h
      · exact Or.inr (ih h)

theorem find_mem_listKeys (d : StoreData) (now : Nat) (k : String) (e : Entry)
    (hf : find d k = some e) (he : e.expired now = false) :
    k ∈ listKeys d now := by
  induction d with
  | nil => simp [find] at hf
  | cons p rest ih =>
    obtain ⟨k', e'⟩ := p
    by_cases hk : k' = k
    · subst hk
      simp only [find, eq_self_iff_true, if_true, Option.some.injEq] at hf
      subst hf
      simp [listKeys, he]
    · simp only [find, if_neg hk] at hf
      have hmem := ih hf
      cases h2 : e'.expired now with
      | true => simpa [listKeys, h2] using hmem
      | false =>
        simp only [listKeys, h2, Bool.false_eq_true, if_false, List.mem_cons]
        exact Or.inr hmem

theorem listKeys_find (d : StoreData) (now : Nat) (hnd : NoDupKeys d)
    (k : String) (h : k ∈ listKeys d now) :
    ∃ e, find d k = some e ∧ e.expired now = false := by
  induction d with
  | nil => simp [listKeys] at h
  | cons p rest ih =>
    obtain ⟨k', e'⟩ := p
    have hnd2 : k' ∉ rest.map Prod.fst ∧ (rest.map Prod.fst).Nodup := by
      simpa [NoDupKeys, List.nodup_cons] using hnd
    cases he : e'.expired now with
    | true =>
      simp only [listKeys, he, if_true] at h
      obtain ⟨e, hf, hexp⟩ := ih hnd2.2 h
      have hkne : k' ≠ k := by
        intro hkk
        subst hkk
        exact hnd2.1 (mem_listKeys_keys rest now k' h)
      exact ⟨e, by simp [find, hkne, hf], hexp⟩
    | false =>
      simp only [listKeys, he, Bool.false_eq_true, if_false, List.mem_cons] at h
      rcases h with h | h
      · subst h
        exact ⟨e', by simp [find], he⟩
      · obtain ⟨e, hf, hexp⟩ := ih hnd2.2 h
        have hkne : k' ≠ k := by
          intro hkk
          subst hkk
          exact hnd2.1 (mem_listKeys_keys rest now k' h)
        exact ⟨e, by simp [find, hkne, hf], hexp⟩

theorem mem_list_iff (d : StoreData) (now : Nat) (hnd : NoDupKeys d)
    (k : String) :
    k ∈ listKeys d now ↔ ∃ e, find d k = some e ∧ e.expired now = false := by
  constructor
  · exact listKeys_find d now hnd k
  · rintro ⟨e, hf, he⟩
    exact find_mem_listKeys d now k e hf he

/-! ### Claim theorems -/

/-- C1: the claim says a second `Stop` must not panic.  The code's `Stop`
is `close(s.stopGC)`, and Go's `close` on an already-closed channel
panics: the first `Stop` after `New` succeeds and leaves the channel
closed, and the second `Stop` on that state panics with
"close of closed channel". -/
theorem stop_twice_hits_closed_channel :
    Store.Stop Store.newCtl = Except.ok (StoreCtl.mk (GoChan.mk true))
    ∧ Store.Stop (StoreCtl.mk (GoChan.mk true)) =
        Except.error "close of closed channel" := by
  constructor
  · rfl
  · rfl

/-- C2: the lost-update interleaving in `Get`'s lazy-expiry path.  With
the store holding key "k" expired at time 2, the read-locked section of
`Get` classifies it as expired; after the read lock is dropped, a
concurrent `Set` stores a fresh never-expiring value for "k"; the
pending write-locked deletion then runs without re-checking expiration
(it takes no time argument at all) and removes the fresh entry, after
which `Get` finds nothing. -/
theorem lost_update_race :
    Store.getCheck [("k", Entry.mk "old" 1)] "k" 2 = GetCheck.expiredHit
    ∧ Store.Set [("k", Entry.mk "old" 1)] "k" "fresh" 0 2 =
        [("k", Entry.mk "fresh" 0)]
    ∧ (∀ t, Entry.expired (Entry.mk "fresh" 0) t = false)
    ∧ Store.getExpiredDelete [("k", Entry.mk "fresh" 0)] "k" = []
    ∧ (Store.Get [] "k" 2).1 = ("", false) := by
  refine ⟨by decide, by decide, ?_, by decide, by decide⟩
  intro t
  simp [Entry.expired]

/-- C3 counterexample: the claim's predicate ("expiresAt set and
now ≥ expiresAt") differs from the code's.  At `now = expiresAt = 5` the
claim calls the entry expired, but the code's `expired` (Go `After`,
strict) does not: `Get` still serves the value and `sweep` keeps the
entry. -/
theorem expired_boundary_cex :
    specExpired (Entry.mk "v" 5) 5 = true
    ∧ Entry.expired (Entry.mk "v" 5) 5 = false
    ∧ (Store.Get [("k", Entry.mk "v" 5)] "k" 5).1 = ("v", true)
    ∧ Store.sweep [("k", Entry.mk "v" 5)] 5 = [("k", Entry.mk "v" 5)] := by
  decide

/-- C3 amended: an entry is expired iff its `expiresAt` is set (non-zero)
and `now` is strictly after it (`expiresAt < now`), and Get, Delete,
List and the sweeper all decide expiration by this same predicate:
sweep's inlined condition removes exactly the `Entry.expired` entries,
and the found/deleted/listed outcomes of Get, Delete and List are each
equivalent to presence of an unexpired entry under that predicate. -/
theorem expired_uniform (e : Entry) (now : Nat) (d : StoreData) (k : String)
    (hnd : NoDupKeys d) :
    (e.expired now = true ↔ e.expiresAt ≠ 0 ∧ e.expiresAt < now)
    ∧ Store.sweep d now = d.filter (fun p => !(p.2.expired now))
    ∧ ((Store.Get d k now).1.2 = true ↔
        ∃ e2, find d k = some e2 ∧ e2.expired now = false)
    ∧ ((Store.Delete d k now).1 = true ↔
        ∃ e2, find d k = some e2 ∧ e2.expired now = false)
    ∧ (k ∈ (Store.List d now).1 ↔
        ∃ e2, find d k = some e2 ∧ e2.expired now = false) := by
  refine ⟨?_, sweep_eq_filter d now, get_found_iff d k now,
    delete_true_iff d k now, mem_list_iff d now hnd k⟩
  simp [Entry.expired]

theorem expired_uniform_witness :
    Entry.expired (Entry.mk "v" 5) 9 = true
    ∧ Store.sweep [("k", Entry.mk "v" 5)] 9 = [] := by
  have h := expired_uniform (Entry.mk "v" 5) 9 [("k", Entry.mk "v" 5)] "k"
    (by decide)
  constructor
  · exact h.1.mpr ⟨by decide, by decide⟩
  · rw [h.2.1]
    decide

/-- C4: `Get` returns `found = true` exactly when the key holds an
unexpired entry (and then returns its value and leaves the map alone);
on an absent key it returns `found = false` and changes nothing; on a
present-but-expired key it returns `found = false` and removes the key,
so the key is absent afterwards. -/
theorem get_contract (d : StoreData) (k : String) (now : Nat) :
    ((Store.Get d k now).1.2 = true ↔
      ∃ e, find d k = some e ∧ e.expired now = false)
    ∧ (find d k = none → Store.Get d k now = (("", false), d))
    ∧ (∀ e, find d k = some e → e.expired now = false →
        Store.Get d k now = ((e.value, true), d))
    ∧ (∀ e, find d k = some e → e.expired now = true →
        (Store.Get d k now).1 = ("", false)
        ∧ find (Store.Get d k now).2 k = none) := by
  refine ⟨get_found_iff d k now, ?_, ?_, ?_⟩
  · intro h
    exact get_of_find_none d k now h
  · intro e hf he
    simp [Store.Get, Store.getCheck, hf, he]
  · intro e hf he
    constructor
    · simp [Store.Get, Store.getCheck, hf, he]
    · simp [Store.Get, Store.getCheck, Store.getExpiredDelete, hf, he,
        find_delKey_self]

theorem get_contract_witness :
    find [("a", Entry.mk "v" 3)] "a" = some (Entry.mk "v" 3)
    ∧ Entry.expired (Entry.mk "v" 3) 5 = true
    ∧ (Store.Get [("a", Entry.mk "v" 3)] "a" 5).1 = ("", false)
    ∧ find (Store.Get [("a", Entry.mk "v" 3)] "a" 5).2 "a" = none := by
  have h := (get_contract [("a", Entry.mk "v" 3)] "a" 5).2.2.2
    (Entry.mk "v" 3) (by decide) (by decide)
  exact ⟨by decide, by decide, h.1, h.2⟩

/-- C5: `Set` inserts or unconditionally overwrites: with `ttl = 0` the
stored entry holds the value and never expires at any time; with
`ttl > 0` the stored entry's `expiresAt` is `now + ttl`; and a second
`Set` on the same key makes the store equal to one where only the second
`Set` happened, so only the second value and ttl are observable via
`Get`. -/
theorem set_contract (d : StoreData) (k v : String) (ttl : Int) (now : Nat) :
    (ttl = 0 →
      ∃ e, find (Store.Set d k v ttl now) k = some e
        ∧ e.value = v ∧ ∀ t, e.expired t = false)
    ∧ (0 < ttl →
        find (Store.Set d k v ttl now) k = some (Entry.mk v (now + ttl.toNat)))
    ∧ (∀ v1 ttl1 n1,
        Store.Set (Store.Set d k v1 ttl1 n1) k v ttl now = Store.Set d k v ttl now
        ∧ ∀ t, Store.Get (Store.Set (Store.Set d k v1 ttl1 n1) k v ttl now) k t =
            Store.Get (Store.Set d k v ttl now) k t) := by
  refine ⟨?_, ?_, ?_⟩
  · intro h
    subst h
    refine ⟨Entry.mk v 0, ?_, rfl, ?_⟩
    · simp [Store.Set, find_setKey_self]
    · intro t
      simp [Entry.expired]
  · intro h
    simp [Store.Set, h, find_setKey_self]
  · intro v1 ttl1 n1
    constructor
    · simp [Store.Set, setKey_setKey]
    · intro t
      simp [Store.Set, setKey_setKey]

theorem set_contract_witness :
    find (Store.Set [] "k" "v" 2 7) "k" = some (Entry.mk "v" 9)
    ∧ Store.Set (Store.Set [] "k" "v1" 0 1) "k" "v" 2 7 =
        Store.Set [] "k" "v" 2 7 := by
  have h := set_contract [] "k" "v" 2 7
  exact ⟨h.2.1 (by decide), (h.2.2 "v1" 0 1).1⟩

/-- C6: `Delete` returns `true` iff the key holds an unexpired entry; it
returns `false` on an absent or expired key; in every case the key is
absent from the map afterwards (the present-but-expired key is also
reclaimed), so any later `Get` of that key returns `found = false`. -/
theorem delete_contract (d : StoreData) (k : String) (now : Nat) :
    ((Store.Delete d k now).1 = true ↔
      ∃ e, find d k = some e ∧ e.expired now = false)
    ∧ find (Store.Delete d k now).2 k = none
    ∧ ∀ t, (Store.Get (Store.Delete d k now).2 k t).1 = ("", false) := by
  have habs : find (Store.Delete d k now).2 k = none := by
    cases hf : find d k with
    | none => simp [Store.Delete, hf, find_delKey_self]
    | some e =>
      cases he : e.expired now with
      | true => simp [Store.Delete, hf, he, find_delKey_self]
      | false => simp [Store.Delete, hf, he, find_delKey_self]
  refine ⟨delete_true_iff d k now, habs, ?_⟩
  intro t
  rw [get_of_find_none _ k t habs]

/-- C7: `List` returns exactly the keys whose entries are present and
unexpired at the single instant `now`; a key whose entry expired before
the call is excluded even though it is still in the map. -/
theorem list_contract (d : StoreData) (now : Nat) (hnd : NoDupKeys d)
    (k : String) :
    k ∈ (Store.List d now).1 ↔
      ∃ e, find d k = some e ∧ e.expired now = false :=
  mem_list_iff d now hnd k

theorem list_contract_witness :
    NoDupKeys [("a", Entry.mk "1" 0), ("b", Entry.mk "2" 3)]
    ∧ "a" ∈ (Store.List [("a", Entry.mk "1" 0), ("b", Entry.mk "2" 3)] 5).1 := by
  refine ⟨by decide, ?_⟩
  exact (list_contract [("a", Entry.mk "1" 0), ("b", Entry.mk "2" 3)] 5
    (by decide) "a").mpr ⟨Entry.mk "1" 0, by decide, by decide⟩

/-- C8: one sweep at instant `now` removes exactly the entries the
expiration predicate holds for, and keeps every other entry (key, value
and expiresAt) unchanged: the result is the filter of the old map by
non-expiration. -/
theorem sweep_contract (d : StoreData) (now : Nat) :
    (∀ k e, (k, e) ∈ Store.sweep d now ↔ (k, e) ∈ d ∧ e.expired now = false)
    ∧ Store.sweep d now = d.filter (fun p => !(p.2.expired now)) := by
  refine ⟨?_, sweep_eq_filter d now⟩
  intro k e
  rw [sweep_eq_filter]
  simp [List.mem_filter]

/-- C9: a strictly negative ttl takes the same branch as ttl = 0: the
stored entry keeps the zero `expiresAt`, never expires, and `Get` keeps
returning the value with `found = true` at every later time. -/
theorem set_negative_ttl (d : StoreData) (k v : String) (ttl : Int)
    (now : Nat) (h : ttl < 0) :
    Store.Set d k v ttl now = Store.Set d k v 0 now
    ∧ ∀ t, Store.Get (Store.Set d k v ttl now) k t =
        ((v, true), Store.Set d k v ttl now) := by
  have hnp : ¬ (0 : Int) < ttl := by omega
  constructor
  · simp [Store.Set, hnp]
  · intro t
    have hfind : find (Store.Set d k v ttl now) k = some (Entry.mk v 0) := by
      simp [Store.Set, hnp, find_setKey_self]
    have hexp : Entry.expired (Entry.mk v 0) t = false := by
      simp [Entry.expired]
    simp [Store.Get, Store.getCheck, hfind, hexp]

theorem set_negative_ttl_witness :
    ((-1 : Int) < 0)
    ∧ Store.Set [] "k" "v" (-1) 7 = Store.Set [] "k" "v" 0 7
    ∧ (Store.Get (Store.Set [] "k" "v" (-1) 7) "k" 100).1 = ("v", true) := by
  have h := set_negative_ttl [] "k" "v" (-1) 7 (by decide)
  exact ⟨by decide, h.1, by rw [h.2 100]⟩

/-- C10: `List` never modifies the store: the map it leaves behind is
the map it was given, and a key holding an expired entry is omitted from
the returned keys yet still maps to that same entry afterwards. -/
theorem list_frame (d : StoreData) (now : Nat) (hnd : NoDupKeys d) :
    (Store.List d now).2 = d
    ∧ ∀ k e, find d k = some e → e.expired now = true →
        k ∉ (Store.List d now).1 ∧ find (Store.List d now).2 k = some e := by
  refine ⟨rfl, ?_⟩
  intro k e hf he
  refine ⟨?_, hf⟩
  intro hmem
  obtain ⟨e2, hf2, he2⟩ := listKeys_find d now hnd k hmem
  rw [hf] at hf2
  cases hf2
  rw [he] at he2
  exact Bool.noConfusion he2

theorem list_frame_witness :
    NoDupKeys [("a", Entry.mk "v" 1)]
    ∧ "a" ∉ (Store.List [("a", Entry.mk "v" 1)] 5).1
    ∧ find (Store.List [("a", Entry.mk "v" 1)] 5).2 "a" = some (Entry.mk "v" 1) := by
  have h := (list_frame [("a", Entry.mk "v" 1)] 5 (by decide)).2
    "a" (Entry.mk "v" 1) (by decide) (by decide)
  exact ⟨by decide, h.1, h.2⟩

end Stashr
